import Mathlib

/- Verification of the entropy-based sensitive-data analyzer.

   This file gives a shallow embedding of the core of `src/main.py`:
   `calculate_entropy` (Shannon entropy of a byte string, log base 2),
   `analyze_file` (read a file, score it, flag iff score > threshold) and
   `analyze_directory` (walk a directory, optionally recursively), and proves
   the claims made by the specification about them.

   Python floats are modelled by real numbers; reading a file is modelled by
   an `Option` of its byte content (`none` = the read raises an OSError,
   which the code catches); the diagnostics the code sends to the logging
   collaborator are modelled by an explicit list of emitted events. -/

namespace DLPA

open Real

/-- A byte value, as stored in a Python `bytes` object. -/
abbrev Byte := Fin 256

/-- The empirical probability `p_x = float(data.count(x)) / len(data)` from
line 44 of the source.  (Real division by zero is zero; the source only reads
this quantity when `data` is nonempty.) -/
noncomputable def prob (data : List Byte) (x : Byte) : ℝ :=
  (data.count x : ℝ) / (data.length : ℝ)

/-- Embedding of `calculate_entropy` (src/main.py lines 29-47): `0` for empty
input, otherwise a fold over `for x in range(256)` accumulating
`entropy += - p_x * math.log(p_x, 2)` exactly when `p_x > 0`.
The Python call `math.log(p, 2)` is `Real.logb 2 p`. -/
noncomputable def calculate_entropy (data : List Byte) : ℝ :=
  if data = [] then 0
  else
    (List.finRange 256).foldl
      (fun entropy x =>
        let p_x : ℝ := prob data x
        if p_x > 0 then entropy + (- p_x * Real.logb 2 p_x) else entropy) 0

lemma prob_nonneg (data : List Byte) (x : Byte) : 0 ≤ prob data x :=
  div_nonneg (Nat.cast_nonneg _) (Nat.cast_nonneg _)

lemma prob_le_one (data : List Byte) (x : Byte) : prob data x ≤ 1 := by
  rcases eq_or_ne data [] with h | h
  · subst h; simp [prob]
  · rw [prob, div_le_one (by exact_mod_cast List.length_pos.2 h)]
    exact_mod_cast List.count_le_length x data

/-- A left fold that conditionally accumulates terms is the sum of those
terms. -/
lemma foldl_add_ite_eq_sum {α : Type} (l : List α) (P : α → Prop) [DecidablePred P]
    (f : α → ℝ) (init : ℝ) :
    l.foldl (fun acc x => if P x then acc + f x else acc) init
      = init + (l.map (fun x => if P x then f x else 0)).sum := by
  induction l generalizing init with
  | nil => simp
  | cons a l ih =>
    simp only [List.foldl_cons, List.map_cons, List.sum_cons, ih]
    split
    · ring_nf
    · ring_nf

/-- The fold in `calculate_entropy` as a sum over all 256 byte values. -/
lemma calculate_entropy_eq_sum (data : List Byte) (hd : data ≠ []) :
    calculate_entropy data
      = ∑ x : Byte,
          if prob data x > 0 then - prob data x * Real.logb 2 (prob data x) else 0 := by
  rw [calculate_entropy, if_neg hd]
  rw [foldl_add_ite_eq_sum (List.finRange 256) (fun x => prob data x > 0)
      (fun x => - prob data x * Real.logb 2 (prob data x)) 0]
  rw [zero_add, Fin.sum_univ_def]

lemma entropy_nil_eq : calculate_entropy [] = 0 := by
  simp [calculate_entropy]

/-- A single conditional summand of the entropy, written via `negMulLog`. -/
lemma ite_term_eq_negMulLog {p : ℝ} (hp : 0 ≤ p) :
    (if p > 0 then - p * Real.logb 2 p else 0) = Real.negMulLog p / Real.log 2 := by
  rcases lt_or_eq_of_le hp with h | h
  · rw [if_pos h, Real.negMulLog, Real.logb]
    ring
  · rw [← h]
    simp

/-- `calculate_entropy` is the `negMulLog` sum divided by `log 2`, for every
input (including the empty one, where both sides vanish). -/
lemma calculate_entropy_eq_negMulLog_sum (data : List Byte) :
    calculate_entropy data
      = (∑ x : Byte, Real.negMulLog (prob data x)) / Real.log 2 := by
  rcases eq_or_ne data [] with h | h
  · subst h
    simp [entropy_nil_eq, prob]
  · rw [calculate_entropy_eq_sum data h, Finset.sum_div]
    exact Finset.sum_congr rfl fun x _ => ite_term_eq_negMulLog (prob_nonneg data x)

lemma sum_count_eq_length (data : List Byte) :
    ∑ x : Byte, data.count x = data.length := by
  induction data with
  | nil => simp
  | cons a l ih =>
    simp [List.count_cons, Finset.sum_add_distrib, ih, add_comm]

lemma sum_prob_eq_one (data : List Byte) (hd : data ≠ []) :
    ∑ x : Byte, prob data x = 1 := by
  have hlen : (0 : ℝ) < (data.length : ℝ) := by
    exact_mod_cast List.length_pos.2 hd
  unfold prob
  rw [← Finset.sum_div, ← Nat.cast_sum, sum_count_eq_length, div_self hlen.ne']

lemma negMulLog_sum_nonneg (data : List Byte) :
    0 ≤ ∑ x : Byte, Real.negMulLog (prob data x) :=
  Finset.sum_nonneg fun x _ =>
    Real.negMulLog_nonneg (prob_nonneg data x) (prob_le_one data x)

/-- The Jensen inequality with uniform weights bounds the `negMulLog` sum by
`log 256`. -/
lemma negMulLog_sum_le_log (data : List Byte) (hd : data ≠ []) :
    ∑ x : Byte, Real.negMulLog (prob data x) ≤ Real.log 256 := by
  have jensen :
      (∑ x : Byte, ((256 : ℝ)⁻¹) • Real.negMulLog (prob data x))
        ≤ Real.negMulLog (∑ x : Byte, ((256 : ℝ)⁻¹) • prob data x) :=
    Real.concaveOn_negMulLog.le_map_sum
      (fun _ _ => by positivity)
      (by rw [Finset.sum_const, Finset.card_univ, Fintype.card_fin, nsmul_eq_mul]; norm_num)
      (fun x _ => Set.mem_Ici.2 (prob_nonneg data x))
  have hsum : (∑ x : Byte, ((256 : ℝ)⁻¹) • prob data x) = (256 : ℝ)⁻¹ := by
    simp only [smul_eq_mul, ← Finset.mul_sum, sum_prob_eq_one data hd, mul_one]
  have hval : Real.negMulLog ((256 : ℝ)⁻¹) = (256 : ℝ)⁻¹ * Real.log 256 := by
    rw [Real.negMulLog, Real.log_inv]
    ring
  rw [hsum, hval] at jensen
  have jensen2 :
      ((256 : ℝ)⁻¹) * (∑ x : Byte, Real.negMulLog (prob data x))
        ≤ (256 : ℝ)⁻¹ * Real.log 256 := by
    calc ((256 : ℝ)⁻¹) * (∑ x : Byte, Real.negMulLog (prob data x))
        = ∑ x : Byte, ((256 : ℝ)⁻¹) • Real.negMulLog (prob data x) := by
          simp [Finset.mul_sum]
      _ ≤ (256 : ℝ)⁻¹ * Real.log 256 := jensen
  exact le_of_mul_le_mul_left jensen2 (by norm_num)

lemma log_256_div_log_two : Real.log 256 / Real.log 2 = 8 := by
  have h : (256 : ℝ) = 2 ^ (8 : ℕ) := by norm_num
  rw [h, Real.log_pow]
  have h2 : Real.log 2 ≠ 0 := (Real.log_pos (by norm_num)).ne'
  field_simp

lemma entropy_nonneg (data : List Byte) : 0 ≤ calculate_entropy data := by
  rw [calculate_entropy_eq_negMulLog_sum]
  exact div_nonneg (negMulLog_sum_nonneg data) (Real.log_nonneg (by norm_num))

lemma entropy_le_eight (data : List Byte) : calculate_entropy data ≤ 8 := by
  rcases eq_or_ne data [] with h | h
  · subst h
    rw [entropy_nil_eq]
    norm_num
  · rw [calculate_entropy_eq_negMulLog_sum, ← log_256_div_log_two]
    have hlog : (0 : ℝ) < Real.log 2 := Real.log_pos (by norm_num)
    exact div_le_div_of_nonneg_right (negMulLog_sum_le_log data h) hlog.le

/-- The formula written from the words of the spec: the sum of
`- p(v) * log2 (p(v))` over exactly those byte values `v` whose probability is
strictly positive (the other values are excluded from the sum). -/
noncomputable def shannonEntropy (data : List Byte) : ℝ :=
  ∑ v ∈ Finset.univ.filter (fun v : Byte => 0 < prob data v),
    - prob data v * Real.logb 2 (prob data v)

lemma entropy_replicate_eq (v : Byte) (n : ℕ) (hn : 0 < n) :
    calculate_entropy (List.replicate n v) = 0 := by
  rw [calculate_entropy_eq_negMulLog_sum, Finset.sum_eq_zero, zero_div]
  intro x _
  rcases eq_or_ne x v with h | h
  · subst h
    have hx : prob (List.replicate n x) x = 1 := by
      rw [prob, List.count_replicate]
      simp [hn.ne']
    rw [hx, Real.negMulLog_one]
  · have hx : prob (List.replicate n v) x = 0 := by
      rw [prob, List.count_replicate]
      simp [Ne.symm h]
    rw [hx, Real.negMulLog_zero]

lemma entropy_perm_eq (d d' : List Byte) (h : d.Perm d') :
    calculate_entropy d = calculate_entropy d' := by
  have hs : (∑ x : Byte, Real.negMulLog (prob d x))
      = ∑ x : Byte, Real.negMulLog (prob d' x) :=
    Finset.sum_congr rfl fun x _ => by rw [prob, prob, h.count_eq, h.length_eq]
  rw [calculate_entropy_eq_negMulLog_sum, calculate_entropy_eq_negMulLog_sum, hs]

/-- Diagnostics and results the code hands to the logging collaborator:
a per-file verdict `(path, score, flagged)`, the error message logged when a
file cannot be read (src/main.py lines 70-75), and the one logged when a
directory cannot be listed (lines 93-96). -/
inductive Event where
  | verdict (path : String) (score : ℝ) (flagged : Bool)
  | readError (path : String)
  | listError (path : String)

/-- Embedding of `analyze_file` (src/main.py lines 50-75).  Reading the file
is modelled by the `Option` content: `some data` when
`open(filepath, "rb").read()` succeeds, `none` when it raises
(`FileNotFoundError` or `IOError`, both of which the code catches and turns
into a logged error plus a `False` return).  The result is the returned
boolean together with the events emitted to the logging collaborator. -/
noncomputable def analyze_file (filepath : String) (content : Option (List Byte))
    (threshold : ℝ) : Bool × List Event :=
  match content with
  | some data =>
    let entropy := calculate_entropy data
    if entropy > threshold then (true, [Event.verdict filepath entropy true])
    else (false, [Event.verdict filepath entropy false])
  | none => (false, [Event.readError filepath])

lemma analyze_file_fst_iff (filepath : String) (data : List Byte) (threshold : ℝ) :
    (analyze_file filepath (some data) threshold).1 = true
      ↔ calculate_entropy data > threshold := by
  rw [analyze_file]
  by_cases h : calculate_entropy data > threshold
  · simp [h]
  · simp [h]

lemma analyze_file_nil_flagged : (analyze_file "a" (some []) (-1)).1 = true := by
  rw [analyze_file_fst_iff, entropy_nil_eq]
  norm_num

/-- A node of the scanned filesystem.  A file carries the result of reading
its bytes (`none` = the read fails); a directory carries the result of
`os.scandir` (`none` = listing it raises `FileNotFoundError`/`OSError`, which
the code catches). -/
inductive FSEntry where
  | file (name : String) (content : Option (List Byte))
  | dir (name : String) (listing : Option (List FSEntry))

mutual

/-- Embedding of `analyze_directory` (src/main.py lines 78-96).  On a node
whose listing fails (or a non-directory node, where `os.scandir` also
raises), the caught exception becomes a single logged error; otherwise each
listed entry is processed in order: files through `analyze_file`, directories
by recursion only when `recursive` is true.  The result is the list of
events emitted to the logging collaborator. -/
noncomputable def analyze_directory (threshold : ℝ) (recursive : Bool) :
    FSEntry → List Event
  | FSEntry.file name _ => [Event.listError name]
  | FSEntry.dir name none => [Event.listError name]
  | FSEntry.dir _ (some entries) => analyzeEntries threshold recursive entries

/-- The `for entry in os.scandir(dirpath)` loop body of `analyze_directory`
(src/main.py lines 88-92), one listed entry at a time. -/
noncomputable def analyzeEntries (threshold : ℝ) (recursive : Bool) :
    List FSEntry → List Event
  | [] => []
  | FSEntry.file name content :: rest =>
      (analyze_file name content threshold).2 ++ analyzeEntries threshold recursive rest
  | FSEntry.dir name listing :: rest =>
      (if recursive then analyze_directory threshold recursive (FSEntry.dir name listing)
        else [])
        ++ analyzeEntries threshold recursive rest

end

lemma analyze_directory_some (threshold : ℝ) (recursive : Bool) (dirname : String)
    (entries : List FSEntry) :
    analyze_directory threshold recursive (FSEntry.dir dirname (some entries))
      = analyzeEntries threshold recursive entries := by
  rw [analyze_directory]

lemma analyze_directory_none (threshold : ℝ) (recursive : Bool) (dirname : String) :
    analyze_directory threshold recursive (FSEntry.dir dirname none)
      = [Event.listError dirname] := by
  rw [analyze_directory]

lemma analyzeEntries_append (threshold : ℝ) (recursive : Bool) (l1 l2 : List FSEntry) :
    analyzeEntries threshold recursive (l1 ++ l2)
      = analyzeEntries threshold recursive l1 ++ analyzeEntries threshold recursive l2 := by
  induction l1 with
  | nil => simp [analyzeEntries]
  | cons e rest ih =>
    cases e with
    | file name content => simp [analyzeEntries, ih]
    | dir name listing => simp [analyzeEntries, ih]

/-- C1: for every byte sequence of positive length, `calculate_entropy`
equals the Shannon entropy of the byte-value distribution of the sequence: the sum
of `- p(v) * log2 (p(v))` over exactly those byte values `v` with positive
probability, values of probability zero contributing nothing. -/
theorem entropy_eq_shannon_spec (data : List Byte) (hd : 0 < data.length) :
    calculate_entropy data = shannonEntropy data := by
  have hne : data ≠ [] := List.length_pos.1 hd
  rw [calculate_entropy_eq_sum data hne, shannonEntropy, Finset.sum_filter]

/-- Witness for `entropy_eq_shannon_spec` at the one-byte input `[0]`. -/
theorem entropy_eq_shannon_spec_witness :
    0 < ([(0 : Byte)] : List Byte).length
      ∧ calculate_entropy [(0 : Byte)] = shannonEntropy [(0 : Byte)] :=
  ⟨by simp, entropy_eq_shannon_spec [(0 : Byte)] (by simp)⟩

/-- C2: for every file whose bytes are readable, `analyze_file` returns
`true` if and only if the computed entropy score is strictly greater than the
threshold; in particular a score exactly equal to the threshold is not
flagged. -/
theorem analyze_file_flags_iff_gt_threshold (filepath : String) (data : List Byte)
    (threshold : ℝ) :
    (analyze_file filepath (some data) threshold).1 = true
      ↔ calculate_entropy data > threshold :=
  analyze_file_fst_iff filepath data threshold

/-- C3: when reading the file fails (`none` content: the path does not exist
or the open/read raises), `analyze_file` catches the error, reports it as a
diagnostic, and returns `false`; being a total function of the read result,
it propagates nothing to its caller. -/
theorem analyze_file_read_failure (filepath : String) (threshold : ℝ) :
    analyze_file filepath none threshold = (false, [Event.readError filepath]) := rfl

/-- C4: the entropy score of every byte sequence, of any length and
distribution, lies in the closed interval `[0, 8]`. -/
theorem entropy_mem_Icc (data : List Byte) :
    0 ≤ calculate_entropy data ∧ calculate_entropy data ≤ 8 :=
  ⟨entropy_nonneg data, entropy_le_eight data⟩

/-- C5: the empty byte sequence scores exactly `0`; the embedding is a total
real-valued function, so the result is neither an error nor a NaN. -/
theorem entropy_empty : calculate_entropy [] = 0 := entropy_nil_eq

/-- C6: a byte sequence of positive length consisting of one repeated byte
value scores exactly `0`. -/
theorem entropy_single_value (v : Byte) (n : ℕ) (hn : 0 < n) :
    calculate_entropy (List.replicate n v) = 0 :=
  entropy_replicate_eq v n hn

/-- Witness for `entropy_single_value` on three copies of byte `65`. -/
theorem entropy_single_value_witness :
    0 < 3 ∧ calculate_entropy (List.replicate 3 (65 : Byte)) = 0 :=
  ⟨by norm_num, entropy_single_value 65 3 (by norm_num)⟩

/-- C7: the entropy score is invariant under permutation of the input bytes:
it depends only on the frequency distribution of byte values, not on their
order. -/
theorem entropy_perm_invariant (d d' : List Byte) (h : d.Perm d') :
    calculate_entropy d = calculate_entropy d' :=
  entropy_perm_eq d d' h

/-- Witness for `entropy_perm_invariant` on the transposition of `[0, 1]`. -/
theorem entropy_perm_invariant_witness :
    ([(0 : Byte), 1] : List Byte).Perm [1, 0]
      ∧ calculate_entropy [(0 : Byte), 1] = calculate_entropy [(1 : Byte), 0] :=
  ⟨List.Perm.swap 1 0 [], entropy_perm_invariant _ _ (List.Perm.swap 1 0 [])⟩

/-- C8: scanning a listable directory with the recursive flag false processes
exactly its immediate file children, in listing order; every subdirectory
entry contributes no events at all: it is neither recursed into, nor flagged,
nor reported, nor treated as an error. -/
theorem analyze_directory_nonrecursive_files_only (threshold : ℝ) (dirname : String)
    (entries : List FSEntry) :
    analyze_directory threshold false (FSEntry.dir dirname (some entries))
      = entries.flatMap (fun e =>
          match e with
          | FSEntry.file name content => (analyze_file name content threshold).2
          | FSEntry.dir _ _ => []) := by
  rw [analyze_directory_some]
  induction entries with
  | nil => simp [analyzeEntries]
  | cons e rest ih =>
    cases e with
    | file name content => simp [analyzeEntries, ih]
    | dir name listing => simp [analyzeEntries, ih]

/-- C9: a directory whose listing fails produces exactly one reported
diagnostic and the traversal returns normally (the embedding is total, so
nothing is raised to the caller); and during a recursive scan, a subdirectory
that fails to list contributes only its own diagnostic while the sibling
entries before and after it are processed exactly as they would be on their
own. -/
theorem analyze_directory_list_failure_isolated (threshold : ℝ) :
    (∀ (recursive : Bool) (dirname : String),
        analyze_directory threshold recursive (FSEntry.dir dirname none)
          = [Event.listError dirname])
      ∧ ∀ (dirname badname : String) (pre post : List FSEntry),
          analyze_directory threshold true
              (FSEntry.dir dirname (some (pre ++ FSEntry.dir badname none :: post)))
            = analyze_directory threshold true (FSEntry.dir dirname (some pre))
                ++ [Event.listError badname]
                ++ analyze_directory threshold true (FSEntry.dir dirname (some post)) := by
  constructor
  · intro recursive dirname
    rw [analyze_directory_none]
  · intro dirname badname pre post
    rw [analyze_directory_some, analyze_directory_some, analyze_directory_some,
      analyzeEntries_append]
    simp [analyzeEntries, analyze_directory_none]

/-- C10: flagging is antitone in the threshold: a readable file flagged at
threshold `t2` is also flagged at every threshold `t1 ≤ t2`; raising the
threshold can only un-flag files. -/
theorem analyze_file_flag_antitone (filepath : String) (data : List Byte)
    (t1 t2 : ℝ) (hle : t1 ≤ t2)
    (h2 : (analyze_file filepath (some data) t2).1 = true) :
    (analyze_file filepath (some data) t1).1 = true := by
  rw [analyze_file_fst_iff] at h2 ⊢
  exact lt_of_le_of_lt hle h2

/-- Witness for `analyze_file_flag_antitone`: the empty file (score `0`) is
flagged at threshold `-1`, hence also at threshold `-2`. -/
theorem analyze_file_flag_antitone_witness :
    ((-2 : ℝ) ≤ -1 ∧ (analyze_file "a" (some []) (-1)).1 = true)
      ∧ (analyze_file "a" (some []) (-2)).1 = true :=
  ⟨⟨by norm_num, analyze_file_nil_flagged⟩,
    analyze_file_flag_antitone "a" [] (-2) (-1) (by norm_num) analyze_file_nil_flagged⟩
